import Mathlib

/-!
Verification of the mocha-testlink-reporter.

Shallow embedding of the `TestLinkReporter` class (file `src/unnamed/part_000`)
and proofs about it.  The reporter subscribes to four mocha runner events and
publishes case results to a TestLink server through a single promise chain
(`this.promiseChain`), which we model as a FIFO task queue executed one task at
a time against an environment `env : Nat -> RpcOutcome` giving the outcome of
the n-th outbound RPC call.  JavaScript strings/undefined are modelled with
`Option String`, JS numbers with `ℚ`.
-/

/-- JS truthiness of an option value coming from `--reporter-options`
(absent/`undefined` and the empty string are falsy). -/
def truthy : Option String → Bool
  | none => false
  | some s => !(s == "")

/-- The `--reporter-options` object.  The JS code reads the keys
`URL`, `apiKey`, `testplanid`, `buildid` and `prefix`; the last one is called
`pfx` here because its JS name is a reserved word in Lean. -/
structure ReporterOptions where
  URL : Option String
  apiKey : Option String
  testplanid : Option String
  buildid : Option String
  pfx : Option String
  deriving DecidableEq

/-- Embeds `validateReporterOptions(options)`: missing options object, then the
plan/prefix check, then the `URL`/`apiKey` loop, each throwing an `Error`
(modelled as `Except.error`) with the source's message. -/
def validateReporterOptions (options : Option ReporterOptions) : Except String Unit :=
  match options with
  | none => Except.error "Missing --reporter-options"
  | some o =>
    if !(truthy o.testplanid && truthy o.buildid) && !(truthy o.pfx) then
      Except.error "Either testplanid or prefix must be specified in --reporter-options"
    else if !(truthy o.URL) then
      Except.error "Missing URL option in --reporter-options"
    else if !(truthy o.apiKey) then
      Except.error "Missing apiKey option in --reporter-options"
    else
      Except.ok ()

/-- Returns `true` iff the `Except` is an `error` (a thrown configuration error). -/
def isErr {α : Type} : Except String α → Bool
  | Except.error _ => true
  | Except.ok _ => false

/-- The constants `ExecutionStatus.PASSED` / `ExecutionStatus.FAILED` from the
`testlink-xmlrpc` constants (an external collaborator), as an enumeration. -/
inductive ExecStatus where
  | passed
  | failed
  deriving DecidableEq

/-- A mocha test as read by the reporter: `test.state` (the constant
`STATE_PASSED` is the string `"passed"`; a pending test has no state, hence
`Option`), `test.duration` in milliseconds, and `test.err.stack` when an error
object is attached. -/
structure TestOutcome where
  state : Option String
  duration : ℚ
  err : Option String
  deriving DecidableEq

/-- One step object produced by `suiteOptions`. -/
structure Step where
  step_number : Nat
  result : ExecStatus
  notes : String
  deriving DecidableEq

/-- The options object passed to `reportTCResult`.  `suiteOptions` builds it
without a `notes` key (hence `notes : Option String`, `none` there), while
`tcOptions` always sets `notes`. -/
structure ResultRecord where
  testcaseexternalid : String
  testplanid : Option String
  status : ExecStatus
  buildid : Option String
  execduration : ℚ
  notes : Option String
  steps : List Step
  deriving DecidableEq

/-- Embeds `suiteOptions(testcaseexternalid, suite)`.  `this.testplanid` and
`this.buildid` are passed explicitly as the current run-context values. -/
def suiteOptions (testcaseexternalid : String) (testplanid buildid : Option String)
    (tests : List TestOutcome) : ResultRecord :=
  { testcaseexternalid := testcaseexternalid
    testplanid := testplanid
    status :=
      if tests.any (fun t => !(t.state == some "passed")) then ExecStatus.failed
      else ExecStatus.passed
    buildid := buildid
    execduration := (tests.foldl (fun acc t => acc + t.duration) 0) / 60000
    notes := none
    steps := tests.enum.map (fun p =>
      { step_number := p.1 + 1
        result := if !(p.2.state == some "passed") then ExecStatus.failed else ExecStatus.passed
        notes := p.2.err.getD "" }) }

/-- Embeds `tcOptions(testcaseexternalid, duration, err)`. -/
def tcOptions (testcaseexternalid : String) (testplanid buildid : Option String)
    (duration : ℚ) (err : Option String) : ResultRecord :=
  { testcaseexternalid := testcaseexternalid
    testplanid := testplanid
    status := match err with | some _ => ExecStatus.failed | none => ExecStatus.passed
    buildid := buildid
    execduration := duration / 60000
    notes := some (match err with | some stack => stack | none => "")
    steps := [] }

/-- JS `\w`: ASCII letters, digits and underscore. -/
def isWordChar (c : Char) : Bool := c.isAlpha || c.isDigit || c == '_'

/-- One attempt of the regex `\[(\w+-\d+)\]` anchored at the head of the
character list.  Greedy matching needs no backtracking here: `\w` excludes
`-` and `\d` excludes `]`, so the maximal munch is the only candidate.
Returns the captured group (without brackets) and the remainder after the
match. -/
def matchIdAt : List Char → Option (List Char × List Char)
  | [] => none
  | c :: rest =>
    if c = '[' then
      let w := rest.takeWhile isWordChar
      match rest.dropWhile isWordChar with
      | [] => none
      | c2 :: r2 =>
        if c2 = '-' then
          let d := r2.takeWhile Char.isDigit
          match r2.dropWhile Char.isDigit with
          | [] => none
          | c3 :: r4 =>
            if c3 = ']' then
              if w.isEmpty || d.isEmpty then none
              else some (w ++ '-' :: d, r4)
            else none
        else none
    else none

/-- The `title.matchAll(re)` scan, fuelled so that it is structurally recursive
(the fuel is an upper bound on the number of characters still to be scanned;
each step consumes at least one character). -/
def scanIdsFuel : Nat → List Char → List String
  | 0, _ => []
  | _ + 1, [] => []
  | fuel + 1, c :: rest =>
    match matchIdAt (c :: rest) with
    | some (tok, r) => String.mk tok :: scanIdsFuel fuel r
    | none => scanIdsFuel fuel rest

/-- Embeds `titleToCaseIds(title)`: every match of `\[(\w+-\d+)\]` in the
title, capture group only, in order of appearance. -/
def titleToCaseIds (title : String) : List String :=
  scanIdsFuel title.data.length title.data

/-- A TestLink project as returned by `getProjects` (only the fields the
reporter reads: `id` and `prefix`). -/
structure Project where
  id : String
  pfx : String
  deriving DecidableEq

/-- One outbound call to the `testlink-xmlrpc` client, with the payload the
reporter passes (constant payload fields included verbatim). -/
inductive RpcCall where
  | checkDevKey
  | createTestPlan (testplanname : String) (pfx : Option String)
  | createBuild (testplanid : Option String) (buildname : String) (buildnotes : String)
      (active : Bool) (isOpen : Bool) (releasedate : String)
  | getProjects
  | addTestCaseToTestPlan (testprojectid : String) (testplanid : Option String)
      (testcaseexternalid : String) (version : Nat)
  | reportTCResult (options : ResultRecord)
  deriving DecidableEq

/-- How one remote call settles: a resolution carrying the value the reporter
reads out of it (`planRes[0].id`, `buildRes[0].id`, the projects array, or a
value the reporter ignores), or a rejection.  A resolution whose shape the
reporter cannot destructure (e.g. `ok` where `planRes[0].id` is read) throws
inside the async thunk and is equivalent to a rejection there. -/
inductive RpcOutcome where
  | ok
  | okPlan (id : String)
  | okBuild (id : String)
  | okProjects (ps : List Project)
  | reject
  deriving DecidableEq

/-- The mutable instance fields of the reporter that queued thunks read and
write (`this.testplanid`, `this.buildid`, `this.testproject`), plus a counter
of outbound calls made so far, used to index the environment. -/
structure CoreState where
  testplanid : Option String
  buildid : Option String
  testproject : Option Project
  nCalls : Nat
  deriving DecidableEq

/-- What `optionsGen` closes over: the data of the triggering event.  The
suite variant captures `suite.tests`, the single-test variant captures
`test.duration` and the optional error. -/
inductive PublishKind where
  | suite (tests : List TestOutcome)
  | tc (duration : ℚ) (err : Option String)
  deriving DecidableEq

/-- One continuation appended to `this.promiseChain`: the initial
`checkDevKey()`, the auto-provisioning thunk of `createTestPlan`, or one
iteration of the loop body of `publishTestResults`. -/
inductive QTask where
  | checkDevKey
  | provision (pfx : Option String) (timestamp : String)
  | publish (caseId : String) (kind : PublishKind)
  deriving DecidableEq

/-- Evaluation of `optionsGen(caseId)` inside the queued thunk, against the
run-context values current at that moment. -/
def pubOptions (c : CoreState) (caseId : String) : PublishKind → ResultRecord
  | PublishKind.suite tests => suiteOptions caseId c.testplanid c.buildid tests
  | PublishKind.tc d e => tcOptions caseId c.testplanid c.buildid d e

/-- Executes one queued thunk to its settlement.  `env n` is the outcome of
the n-th outbound call of the run.  Every thunk ends in `.catch(console.error)`
in the source, so a rejection anywhere inside it stops the rest of that thunk
(the remaining `await`s) but always yields a settled state for the chain to
continue from.  Returns the new instance state and the calls the thunk made,
in order. -/
def execTask (env : Nat → RpcOutcome) (c : CoreState) : QTask → CoreState × List RpcCall
  | QTask.checkDevKey =>
    ({ c with nCalls := c.nCalls + 1 }, [RpcCall.checkDevKey])
  | QTask.provision pfxO ts =>
    let call1 := RpcCall.createTestPlan ("Automated test plan " ++ ts) pfxO
    match env c.nCalls with
    | RpcOutcome.okPlan pid =>
      let c1 : CoreState := { c with testplanid := some pid, nCalls := c.nCalls + 1 }
      let call2 := RpcCall.createBuild (some pid) "automated build" "" true true ""
      match env c1.nCalls with
      | RpcOutcome.okBuild bid =>
        let c2 : CoreState := { c1 with buildid := some bid, nCalls := c1.nCalls + 1 }
        match env c2.nCalls with
        | RpcOutcome.okProjects ps =>
          ({ c2 with testproject := ps.find? (fun p => some p.pfx == pfxO),
                     nCalls := c2.nCalls + 1 },
           [call1, call2, RpcCall.getProjects])
        | _ =>
          ({ c2 with nCalls := c2.nCalls + 1 }, [call1, call2, RpcCall.getProjects])
      | _ => ({ c1 with nCalls := c1.nCalls + 1 }, [call1, call2])
    | _ => ({ c with nCalls := c.nCalls + 1 }, [call1])
  | QTask.publish caseId kind =>
    let options := pubOptions c caseId kind
    match c.testproject with
    | some proj =>
      let addCall := RpcCall.addTestCaseToTestPlan proj.id c.testplanid caseId 1
      match env c.nCalls with
      | RpcOutcome.reject => ({ c with nCalls := c.nCalls + 1 }, [addCall])
      | _ => ({ c with nCalls := c.nCalls + 2 },
              [addCall, RpcCall.reportTCResult options])
    | none => ({ c with nCalls := c.nCalls + 1 }, [RpcCall.reportTCResult options])

/-- Runs a list of queued thunks in order, each starting from the state the
previous one settled in; collects all calls in order. -/
def chainExec (env : Nat → RpcOutcome) : CoreState → List QTask → CoreState × List RpcCall
  | c, [] => (c, [])
  | c, t :: ts =>
    let r1 := execTask env c t
    let r2 := chainExec env r1.1 ts
    (r2.1, r1.2 ++ r2.2)

/-- Like `chainExec` but keeps the calls of each thunk as a separate block. -/
def taskBlocks (env : Nat → RpcOutcome) : CoreState → List QTask → List (List RpcCall)
  | _, [] => []
  | c, t :: ts => (execTask env c t).2 :: taskBlocks env (execTask env c t).1 ts

/-- A mocha runner notification after the run has begun, carrying exactly the
data the corresponding handler reads. -/
inductive PubEvent where
  | suiteEnd (title : String) (tests : List TestOutcome)
  | testPass (title : String) (duration : ℚ)
  | testFail (title : String) (duration : ℚ) (errStack : String)
  deriving DecidableEq

/-- The thunks `publishTestResults` appends for one event: one per case id in
the title, in title order.  This is all the handler does synchronously; it
reads no mutable instance state. -/
def tasksOf : PubEvent → List QTask
  | PubEvent.suiteEnd title tests =>
    (titleToCaseIds title).map (fun cid => QTask.publish cid (PublishKind.suite tests))
  | PubEvent.testPass title d =>
    (titleToCaseIds title).map (fun cid => QTask.publish cid (PublishKind.tc d none))
  | PubEvent.testFail title d e =>
    (titleToCaseIds title).map (fun cid => QTask.publish cid (PublishKind.tc d (some e)))

/-- All thunks contributed by a list of events, in event order. -/
def eventTasks : List PubEvent → List QTask
  | [] => []
  | e :: es => tasksOf e ++ eventTasks es

/-- The calls of a run grouped into one block per event, blocks in event
order; the state threads through the blocks in that same order. -/
def eventBlocks (env : Nat → RpcOutcome) : CoreState → List PubEvent → List (List RpcCall)
  | _, [] => []
  | c, e :: es =>
    (chainExec env c (tasksOf e)).2 :: eventBlocks env (chainExec env c (tasksOf e)).1 es

/-- Whole-system state: instance fields, events not yet emitted by the runner,
thunks appended to the chain but not yet settled, and the calls already made. -/
structure SysState where
  core : CoreState
  pending : List PubEvent
  queue : List QTask
  trace : List RpcCall
  deriving DecidableEq

/-- The runner emits the next event; its handler runs synchronously and
appends that event's thunks to the tail of the chain. -/
def deliverOne (s : SysState) : SysState :=
  match s.pending with
  | [] => s
  | e :: rest => { s with pending := rest, queue := s.queue ++ tasksOf e }

/-- The head thunk of the chain runs to settlement. -/
def execOne (env : Nat → RpcOutcome) (s : SysState) : SysState :=
  match s.queue with
  | [] => s
  | t :: q =>
    { s with core := (execTask env s.core t).1, queue := q,
             trace := s.trace ++ (execTask env s.core t).2 }

/-- Runs `k` head thunks to settlement. -/
def execN (env : Nat → RpcOutcome) : Nat → SysState → SysState
  | 0, s => s
  | k + 1, s => execN env k (execOne env s)

/-- Fuelled chain drain. -/
def drainFuel (env : Nat → RpcOutcome) : Nat → SysState → SysState
  | 0, s => s
  | f + 1, s => drainFuel env f (execOne env s)

/-- Runs every queued thunk to settlement (each `execOne` shortens a nonempty
queue by exactly one, so the queue length is exactly enough fuel). -/
def drain (env : Nat → RpcOutcome) (s : SysState) : SysState :=
  drainFuel env s.queue.length s

/-- Fuelled event delivery. -/
def deliverAllFuel : Nat → SysState → SysState
  | 0, s => s
  | f + 1, s => deliverAllFuel f (deliverOne s)

/-- Delivers every pending event. -/
def deliverAll (s : SysState) : SysState :=
  deliverAllFuel s.pending.length s

/-- A complete run under an arbitrary cooperative schedule: `sched = [k0, k1, …]`
lets `k0` queued thunks settle, then the runner emits the next event, then `k1`
thunks settle, and so on; once the schedule is exhausted the remaining events
are emitted and the chain drains.  This models every possible interleaving of
remote-call settlement with runner events. -/
def runSched (env : Nat → RpcOutcome) : List Nat → SysState → SysState
  | [], s => drain env (deliverAll s)
  | k :: ks, s => runSched env ks (deliverOne (execN env k s))

/-- State right after the constructor ran and the runner emitted
`EVENT_RUN_BEGIN`: the chain holds `checkDevKey()` (initiated in the
constructor), and `createTestPlan(options)` either adopted the configured
`testplanid`/`buildid` synchronously (truthy `testplanid`) or appended the
auto-provisioning thunk. -/
def initState (o : ReporterOptions) (timestamp : String) (events : List PubEvent) : SysState :=
  if truthy o.testplanid then
    { core := { testplanid := o.testplanid, buildid := o.buildid,
                testproject := none, nCalls := 0 }
      pending := events
      queue := [QTask.checkDevKey]
      trace := [] }
  else
    { core := { testplanid := none, buildid := none, testproject := none, nCalls := 0 }
      pending := events
      queue := [QTask.checkDevKey, QTask.provision o.pfx timestamp]
      trace := [] }

/-- The constructor: validates the reporter options synchronously and only
then builds the initial system state (no call has been made, the trace of a
failed construction does not exist). -/
def TestLinkReporter (options : Option ReporterOptions) (timestamp : String)
    (events : List PubEvent) : Except String SysState :=
  match validateReporterOptions options, options with
  | Except.error e, _ => Except.error e
  | Except.ok _, some o => Except.ok (initState o timestamp events)
  | Except.ok _, none => Except.error "Missing --reporter-options"

/-- Concrete auto-provisioning configuration (prefix only, no pre-existing
plan) used for counterexamples and witnesses. -/
def cexOpts : ReporterOptions :=
  ⟨some "http://testlink.example", some "key", none, none, some "XPJ"⟩

/-- Concrete environment: call 0 is `checkDevKey`, calls 1-3 are the
provisioning chain (plan `P1`, build `B1`, no projects), everything else
resolves. -/
def cexEnv : Nat → RpcOutcome := fun n =>
  match n with
  | 1 => RpcOutcome.okPlan "P1"
  | 2 => RpcOutcome.okBuild "B1"
  | 3 => RpcOutcome.okProjects []
  | _ => RpcOutcome.ok

/-- The list is entirely ASCII word characters (JS `\w`). -/
def IsWordList (w : List Char) : Prop := ∀ c ∈ w, isWordChar c = true

/-- The list is entirely decimal digits (JS `\d`). -/
def IsDigitList (d : List Char) : Prop := ∀ c ∈ d, c.isDigit = true

/-- The character list is one full match of the pattern
`[` + one-or-more word characters + `-` + one-or-more digits + `]`
(the specification's description of `\[(\w+-\d+)\]`). -/
def MatchesIdPattern (s : List Char) : Prop :=
  ∃ w d : List Char, w ≠ [] ∧ d ≠ [] ∧ IsWordList w ∧ IsDigitList d ∧
    s = '[' :: (w ++ '-' :: (d ++ [']']))

/-! ## Lemmas about the record builders -/

lemma foldl_duration (l : List TestOutcome) :
    ∀ a : ℚ, l.foldl (fun acc t => acc + t.duration) a = a + (l.map TestOutcome.duration).sum := by
  induction l with
  | nil => intro a; simp
  | cons t ts ih => intro a; simp [List.foldl_cons, ih, add_assoc]

/-- C4: the suite record fails iff some constituent test did not pass (so the
empty suite passes), its duration is the sum of the constituent durations
divided by 60000, and it has one step per constituent test, numbered 1-based
in original order, with the step status mirroring that test's pass/fail and
the step notes being the error's stack trace when present and `""` otherwise. -/
theorem c4_suite_record :
    ∀ (cid : String) (plid bid : Option String) (tests : List TestOutcome),
      ((suiteOptions cid plid bid tests).status = ExecStatus.failed ↔
          ∃ t ∈ tests, ¬ t.state = some "passed")
        ∧ (suiteOptions cid plid bid []).status = ExecStatus.passed
        ∧ (suiteOptions cid plid bid tests).execduration
            = (tests.map TestOutcome.duration).sum / 60000
        ∧ (suiteOptions cid plid bid tests).steps.length = tests.length
        ∧ ∀ i : Nat, (suiteOptions cid plid bid tests).steps[i]? =
            (tests[i]?).map (fun t =>
              { step_number := i + 1
                result := if t.state = some "passed" then ExecStatus.passed else ExecStatus.failed
                notes := t.err.getD "" }) := by
  intro cid plid bid tests
  refine ⟨?_, rfl, ?_, ?_, ?_⟩
  · rw [show (suiteOptions cid plid bid tests).status
        = (if tests.any (fun t => !(t.state == some "passed")) = true then ExecStatus.failed
           else ExecStatus.passed) from rfl]
    constructor
    · intro hif
      by_cases hany : tests.any (fun t => !(t.state == some "passed")) = true
      · rw [List.any_eq_true] at hany
        obtain ⟨t, ht, hp⟩ := hany
        refine ⟨t, ht, ?_⟩
        intro hs
        simp [hs] at hp
      · rw [if_neg hany] at hif
        exact ExecStatus.noConfusion hif
    · rintro ⟨t, ht, hs⟩
      have hany : tests.any (fun t => !(t.state == some "passed")) = true := by
        rw [List.any_eq_true]
        refine ⟨t, ht, ?_⟩
        simp [hs]
      rw [if_pos hany]
  · show (tests.foldl (fun acc t => acc + t.duration) 0) / 60000 = _
    rw [foldl_duration tests 0, zero_add]
  · simp [suiteOptions]
  · intro i
    show (tests.enum.map _)[i]? = _
    rw [List.getElem?_map, List.getElem?_enum]
    cases h : tests[i]? with
    | none => rfl
    | some t =>
      simp only [Option.map_map, Option.map_some']
      by_cases hp : t.state = some "passed" <;> simp [hp]

/-- Witness for C4 at a concrete suite (one passing, one failing test). -/
theorem c4_suite_record_witness :
    ((suiteOptions "AB-1" (some "p") (some "b")
        [⟨some "passed", 60, none⟩, ⟨some "failed", 120, some "boom"⟩]).status
      = ExecStatus.failed ↔
        ∃ t ∈ [(⟨some "passed", 60, none⟩ : TestOutcome), ⟨some "failed", 120, some "boom"⟩],
          ¬ t.state = some "passed")
    ∧ (suiteOptions "AB-1" (some "p") (some "b") []).status = ExecStatus.passed
    ∧ (suiteOptions "AB-1" (some "p") (some "b")
        [⟨some "passed", 60, none⟩, ⟨some "failed", 120, some "boom"⟩]).execduration
      = ([(⟨some "passed", 60, none⟩ : TestOutcome), ⟨some "failed", 120, some "boom"⟩].map
          TestOutcome.duration).sum / 60000
    ∧ (suiteOptions "AB-1" (some "p") (some "b")
        [⟨some "passed", 60, none⟩, ⟨some "failed", 120, some "boom"⟩]).steps.length = 2
    ∧ ∀ i : Nat, (suiteOptions "AB-1" (some "p") (some "b")
        [⟨some "passed", 60, none⟩, ⟨some "failed", 120, some "boom"⟩]).steps[i]? =
        (([(⟨some "passed", 60, none⟩ : TestOutcome), ⟨some "failed", 120, some "boom"⟩])[i]?).map
          (fun t =>
            { step_number := i + 1
              result := if t.state = some "passed" then ExecStatus.passed else ExecStatus.failed
              notes := t.err.getD "" }) :=
  c4_suite_record "AB-1" (some "p") (some "b")
    [⟨some "passed", 60, none⟩, ⟨some "failed", 120, some "boom"⟩]

/-- C5: the single-test record fails and carries the error's stack trace as
notes when an error is present, passes with empty notes otherwise, converts
the duration to minutes by dividing by 60000, and has no steps. -/
theorem c5_tc_record :
    ∀ (cid : String) (plid bid : Option String) (d : ℚ) (err : Option String),
      (∀ stack : String, err = some stack →
        (tcOptions cid plid bid d err).status = ExecStatus.failed
        ∧ (tcOptions cid plid bid d err).notes = some stack)
      ∧ (err = none →
        (tcOptions cid plid bid d err).status = ExecStatus.passed
        ∧ (tcOptions cid plid bid d err).notes = some "")
      ∧ (tcOptions cid plid bid d err).execduration = d / 60000
      ∧ (tcOptions cid plid bid d err).steps = [] := by
  intro cid plid bid d err
  refine ⟨?_, ?_, rfl, rfl⟩
  · intro stack h; subst h; exact ⟨rfl, rfl⟩
  · intro h; subst h; exact ⟨rfl, rfl⟩

/-- Witness for C5: a failing test with a stack trace, and a passing one. -/
theorem c5_tc_record_witness :
    ((tcOptions "AB-1" (some "p") (some "b") 1200 (some "trace")).status = ExecStatus.failed
      ∧ (tcOptions "AB-1" (some "p") (some "b") 1200 (some "trace")).notes = some "trace")
    ∧ ((tcOptions "AB-1" (some "p") (some "b") 1200 none).status = ExecStatus.passed
      ∧ (tcOptions "AB-1" (some "p") (some "b") 1200 none).notes = some "") :=
  ⟨(c5_tc_record "AB-1" (some "p") (some "b") 1200 (some "trace")).1 "trace" rfl,
   (c5_tc_record "AB-1" (some "p") (some "b") 1200 none).2.1 rfl⟩

/-- C9: millisecond-to-minute conversion is exact division by 60000 (in both
record builders); in particular 60000 ms is 1 minute, 0 ms is 0, and 1200 ms
is 0.02 minutes. -/
theorem c9_duration_conversion :
    (∀ (cid : String) (plid bid : Option String) (d : ℚ) (err : Option String),
      (tcOptions cid plid bid d err).execduration * 60000 = d)
    ∧ (∀ (cid : String) (plid bid : Option String) (tests : List TestOutcome),
      (suiteOptions cid plid bid tests).execduration * 60000
        = (tests.map TestOutcome.duration).sum)
    ∧ (tcOptions "C-1" none none 60000 none).execduration = 1
    ∧ (tcOptions "C-1" none none 0 none).execduration = 0
    ∧ (tcOptions "C-1" none none 1200 none).execduration = (0.02 : ℚ) := by
  refine ⟨?_, ?_, ?_, ?_, ?_⟩
  · intro cid plid bid d err
    show d / 60000 * 60000 = d
    rw [div_mul_cancel₀]
    norm_num
  · intro cid plid bid tests
    show (tests.foldl (fun acc t => acc + t.duration) 0) / 60000 * 60000 = _
    rw [foldl_duration tests 0, zero_add, div_mul_cancel₀]
    norm_num
  · show (60000 : ℚ) / 60000 = 1; norm_num
  · show (0 : ℚ) / 60000 = 0; norm_num
  · show (1200 : ℚ) / 60000 = (0.02 : ℚ); norm_num

/-- C6: construction raises a configuration error synchronously if `URL` or
`apiKey` is absent, or if neither the `testplanid`/`buildid` pair nor a
`prefix` is supplied; `URL`, `apiKey` and a prefix alone pass validation.  The
constructor (`TestLinkReporter`) validates before any state (and hence any
asynchronous work) exists, so a validation failure means construction fails. -/
theorem c6_config_validation :
    isErr (validateReporterOptions none) = true
    ∧ (∀ o : ReporterOptions, truthy o.URL = false →
        isErr (validateReporterOptions (some o)) = true)
    ∧ (∀ o : ReporterOptions, truthy o.apiKey = false →
        isErr (validateReporterOptions (some o)) = true)
    ∧ (∀ o : ReporterOptions, (truthy o.testplanid = false ∨ truthy o.buildid = false) →
        truthy o.pfx = false → isErr (validateReporterOptions (some o)) = true)
    ∧ (∀ u k p : String, u ≠ "" → k ≠ "" → p ≠ "" →
        validateReporterOptions (some ⟨some u, some k, none, none, some p⟩) = Except.ok ())
    ∧ (∀ (opts : Option ReporterOptions) (ts : String) (events : List PubEvent),
        isErr (validateReporterOptions opts) = true →
        isErr (TestLinkReporter opts ts events) = true) := by
  refine ⟨rfl, ?_, ?_, ?_, ?_, ?_⟩
  · intro o h
    simp only [validateReporterOptions]
    by_cases h1 : (!(truthy o.testplanid && truthy o.buildid) && !(truthy o.pfx)) = true
    · rw [if_pos h1]; rfl
    · rw [if_neg h1, if_pos (by simp [h])]; rfl
  · intro o h
    simp only [validateReporterOptions]
    by_cases h1 : (!(truthy o.testplanid && truthy o.buildid) && !(truthy o.pfx)) = true
    · rw [if_pos h1]; rfl
    · rw [if_neg h1]
      by_cases h2 : (!(truthy o.URL)) = true
      · rw [if_pos h2]; rfl
      · rw [if_neg h2, if_pos (by simp [h])]; rfl
  · intro o h hpfx
    have hc : (!(truthy o.testplanid && truthy o.buildid) && !(truthy o.pfx)) = true := by
      rcases h with h | h <;> simp [h, hpfx]
    simp only [validateReporterOptions]
    rw [if_pos hc]; rfl
  · intro u k p hu hk hp
    simp [validateReporterOptions, truthy, hu, hk, hp]
  · intro opts ts events h
    cases hv : validateReporterOptions opts with
    | error e => cases opts <;> simp [TestLinkReporter, hv, isErr]
    | ok v => rw [hv] at h; simp [isErr] at h

/-- Witness for C6: a concrete options object missing `URL` is rejected, and
one with `URL`, `apiKey` and a prefix alone is accepted. -/
theorem c6_config_validation_witness :
    isErr (validateReporterOptions
      (some ⟨none, some "k", some "1", some "2", none⟩)) = true
    ∧ validateReporterOptions
      (some ⟨some "http://h", some "k", none, none, some "XPJ"⟩) = Except.ok () :=
  ⟨c6_config_validation.2.1 ⟨none, some "k", some "1", some "2", none⟩ rfl,
   c6_config_validation.2.2.2.2.1 "http://h" "k" "XPJ"
     (by decide) (by decide) (by decide)⟩

/-! ## Lemmas about the promise chain and the cooperative schedule -/

lemma execOne_nil (env : Nat → RpcOutcome) (s : SysState) (h : s.queue = []) :
    execOne env s = s := by
  simp [execOne, h]

lemma execOne_pending (env : Nat → RpcOutcome) (s : SysState) :
    (execOne env s).pending = s.pending := by
  obtain ⟨c, p, q, tr⟩ := s
  cases q <;> rfl

lemma deliverOne_queue_ne (s : SysState) (hq : s.queue ≠ []) :
    (deliverOne s).queue ≠ [] := by
  obtain ⟨c, p, q, tr⟩ := s
  cases p with
  | nil => exact hq
  | cons e rest =>
    show q ++ tasksOf e ≠ []
    cases q with
    | nil => exact absurd rfl hq
    | cons t q2 => simp

/-- A runner event commutes with the settlement of the (unrelated) head thunk:
the handler only appends to the tail of the chain and reads no mutable
instance state, while the thunk pops the head and touches no pending event. -/
lemma deliver_exec_comm (env : Nat → RpcOutcome) (s : SysState) (hq : s.queue ≠ []) :
    deliverOne (execOne env s) = execOne env (deliverOne s) := by
  obtain ⟨c, p, q, tr⟩ := s
  cases q with
  | nil => exact absurd rfl hq
  | cons t q =>
    cases p with
    | nil => rfl
    | cons e rest => rfl

lemma drain_execOne (env : Nat → RpcOutcome) (s : SysState) :
    drain env (execOne env s) = drain env s := by
  obtain ⟨c, p, q, tr⟩ := s
  cases q with
  | nil => rw [execOne_nil env _ rfl]
  | cons t q => rfl

lemma deliverAllFuel_execOne (env : Nat → RpcOutcome) :
    ∀ (n : Nat) (s : SysState), s.queue ≠ [] →
      deliverAllFuel n (execOne env s) = execOne env (deliverAllFuel n s) := by
  intro n
  induction n with
  | zero => intro s hq; rfl
  | succ n ih =>
    intro s hq
    show deliverAllFuel n (deliverOne (execOne env s))
        = execOne env (deliverAllFuel n (deliverOne s))
    rw [deliver_exec_comm env s hq]
    exact ih (deliverOne s) (deliverOne_queue_ne s hq)

lemma drain_deliverAll_execOne (env : Nat → RpcOutcome) (s : SysState) :
    drain env (deliverAll (execOne env s)) = drain env (deliverAll s) := by
  by_cases hq : s.queue = []
  · rw [execOne_nil env s hq]
  · have h1 : deliverAll (execOne env s) = execOne env (deliverAll s) := by
      unfold deliverAll
      rw [execOne_pending]
      exact deliverAllFuel_execOne env s.pending.length s hq
    rw [h1, drain_execOne]

lemma drain_deliverAll_execN (env : Nat → RpcOutcome) :
    ∀ (k : Nat) (s : SysState),
      drain env (deliverAll (execN env k s)) = drain env (deliverAll s) := by
  intro k
  induction k with
  | zero => intro s; rfl
  | succ k ih =>
    intro s
    show drain env (deliverAll (execN env k (execOne env s))) = _
    rw [ih (execOne env s), drain_deliverAll_execOne]

lemma deliverAll_deliverOne (s : SysState) : deliverAll (deliverOne s) = deliverAll s := by
  obtain ⟨c, p, q, tr⟩ := s
  cases p with
  | nil => rfl
  | cons e rest => rfl

/-- Schedule independence: however remote-call settlements interleave with
runner events, a completed run ends in the same state as "all events first,
then drain the chain". -/
lemma runSched_eq_drain (env : Nat → RpcOutcome) :
    ∀ (sched : List Nat) (s : SysState),
      runSched env sched s = drain env (deliverAll s) := by
  intro sched
  induction sched with
  | nil => intro s; rfl
  | cons k ks ih =>
    intro s
    show runSched env ks (deliverOne (execN env k s)) = _
    rw [ih, deliverAll_deliverOne, drain_deliverAll_execN]

lemma chainExec_append (env : Nat → RpcOutcome) :
    ∀ (l1 l2 : List QTask) (c : CoreState),
      chainExec env c (l1 ++ l2)
        = ((chainExec env (chainExec env c l1).1 l2).1,
           (chainExec env c l1).2 ++ (chainExec env (chainExec env c l1).1 l2).2) := by
  intro l1
  induction l1 with
  | nil => intro l2 c; simp [chainExec]
  | cons t ts ih =>
    intro l2 c
    simp [chainExec, ih, List.append_assoc]

lemma drain_eq (env : Nat → RpcOutcome) :
    ∀ (q : List QTask) (c : CoreState) (p : List PubEvent) (tr : List RpcCall),
      drain env ⟨c, p, q, tr⟩
        = ⟨(chainExec env c q).1, p, [], tr ++ (chainExec env c q).2⟩ := by
  intro q
  induction q with
  | nil => intro c p tr; simp [drain, drainFuel, chainExec]
  | cons t q ih =>
    intro c p tr
    have h1 : drain env ⟨c, p, t :: q, tr⟩
        = drain env ⟨(execTask env c t).1, p, q, tr ++ (execTask env c t).2⟩ := rfl
    rw [h1, ih]
    simp [chainExec, List.append_assoc]

lemma deliverAll_eq :
    ∀ (p : List PubEvent) (c : CoreState) (q : List QTask) (tr : List RpcCall),
      deliverAll ⟨c, p, q, tr⟩ = ⟨c, [], q ++ eventTasks p, tr⟩ := by
  intro p
  induction p with
  | nil => intro c q tr; simp [deliverAll, deliverAllFuel, eventTasks]
  | cons e rest ih =>
    intro c q tr
    have h1 : deliverAll ⟨c, e :: rest, q, tr⟩ = deliverAll ⟨c, rest, q ++ tasksOf e, tr⟩ := rfl
    rw [h1, ih]
    simp [eventTasks, List.append_assoc]

lemma chainExec_eventTasks (env : Nat → RpcOutcome) :
    ∀ (events : List PubEvent) (c : CoreState),
      (chainExec env c (eventTasks events)).2 = (eventBlocks env c events).flatten := by
  intro events
  induction events with
  | nil => intro c; rfl
  | cons e es ih =>
    intro c
    show (chainExec env c (tasksOf e ++ eventTasks es)).2 = _
    rw [chainExec_append]
    simp [eventBlocks, ih]

/-- The trace of any completed run, in closed form: the calls of the thunks
already queued at run begin, then one contiguous block per event, in event
order. -/
lemma run_trace (env : Nat → RpcOutcome) (sched : List Nat) (c : CoreState)
    (p : List PubEvent) (q : List QTask) (tr : List RpcCall) :
    (runSched env sched ⟨c, p, q, tr⟩).trace
      = tr ++ (chainExec env c q).2
          ++ (eventBlocks env (chainExec env c q).1 p).flatten := by
  rw [runSched_eq_drain, deliverAll_eq, drain_eq, chainExec_append]
  simp [chainExec_eventTasks, List.append_assoc]

lemma initState_pending (o : ReporterOptions) (ts : String) (events : List PubEvent) :
    (initState o ts events).pending = events := by
  unfold initState; split <;> rfl

lemma initState_trace (o : ReporterOptions) (ts : String) (events : List PubEvent) :
    (initState o ts events).trace = [] := by
  unfold initState; split <;> rfl

/-- C1: all outbound calls go through the single promise chain, each queued
thunk starting only after the previous one settled (`chainExec` threads the
settled state of thunk n into thunk n+1), so under every interleaving of
remote-call settlements with runner events (`sched`) the calls reach the
client in exactly the order of their triggering events: the trace is the
constructor/provisioning block followed by one contiguous block per event, in
event order, independent of the schedule. -/
theorem c1_ordered_delivery :
    ∀ (env : Nat → RpcOutcome) (sched : List Nat) (o : ReporterOptions)
      (ts : String) (events : List PubEvent),
      (runSched env sched (initState o ts events)).trace
        = (chainExec env (initState o ts events).core (initState o ts events).queue).2
          ++ (eventBlocks env
                (chainExec env (initState o ts events).core (initState o ts events).queue).1
                events).flatten := by
  intro env sched o ts events
  have hp := initState_pending o ts events
  have htr := initState_trace o ts events
  rcases hdef : initState o ts events with ⟨c, p, q, tr⟩
  rw [hdef] at hp htr
  simp only at hp htr
  subst hp htr
  rw [run_trace]
  simp

/-! ## Fault tolerance of the chain (C7) -/

lemma execTask_calls_ne_nil (env : Nat → RpcOutcome) (c : CoreState) (t : QTask) :
    (execTask env c t).2 ≠ [] := by
  cases t with
  | checkDevKey => simp [execTask]
  | provision p ts =>
    simp only [execTask]
    rcases env c.nCalls with _ | pid | bid | ps | _ <;> simp
    all_goals
      rcases env (c.nCalls + 1) with _ | pid2 | bid2 | ps2 | _ <;> simp
    all_goals
      rcases env (c.nCalls + 1 + 1) with _ | pid3 | bid3 | ps3 | _ <;> simp
  | publish cid kind =>
    simp only [execTask]
    rcases c.testproject with _ | proj <;> simp
    rcases env c.nCalls with _ | pid | bid | ps | _ <;> simp

lemma taskBlocks_length (env : Nat → RpcOutcome) :
    ∀ (tasks : List QTask) (c : CoreState),
      (taskBlocks env c tasks).length = tasks.length := by
  intro tasks
  induction tasks with
  | nil => intro c; rfl
  | cons t ts ih => intro c; simp [taskBlocks, ih]

lemma taskBlocks_ne_nil (env : Nat → RpcOutcome) :
    ∀ (tasks : List QTask) (c : CoreState) (b : List RpcCall),
      b ∈ taskBlocks env c tasks → b ≠ [] := by
  intro tasks
  induction tasks with
  | nil => intro c b hb; simp [taskBlocks] at hb
  | cons t ts ih =>
    intro c b hb
    rcases List.mem_cons.mp hb with h | h
    · rw [h]; exact execTask_calls_ne_nil env c t
    · exact ih _ b h

lemma chainExec_flatten (env : Nat → RpcOutcome) :
    ∀ (tasks : List QTask) (c : CoreState),
      (chainExec env c tasks).2 = (taskBlocks env c tasks).flatten := by
  intro tasks
  induction tasks with
  | nil => intro c; rfl
  | cons t ts ih => intro c; simp [chainExec, taskBlocks, ih]

/-- C7: whatever the environment does — including rejecting any or all remote
calls — every queued thunk still executes: the per-thunk call blocks are in
bijection with the queued thunks and each is nonempty (the thunk ran and made
its first call), the chain is their concatenation, and execution is total (the
`.catch(console.error)` is built into `execTask`, so a rejection settles the
thunk instead of propagating). -/
theorem c7_fault_tolerance :
    (∀ (env : Nat → RpcOutcome) (c : CoreState) (t : QTask), (execTask env c t).2 ≠ [])
    ∧ (∀ (env : Nat → RpcOutcome) (tasks : List QTask) (c : CoreState),
        (taskBlocks env c tasks).length = tasks.length)
    ∧ (∀ (env : Nat → RpcOutcome) (tasks : List QTask) (c : CoreState) (b : List RpcCall),
        b ∈ taskBlocks env c tasks → b ≠ [])
    ∧ (∀ (env : Nat → RpcOutcome) (tasks : List QTask) (c : CoreState),
        (chainExec env c tasks).2 = (taskBlocks env c tasks).flatten) :=
  ⟨execTask_calls_ne_nil, fun env tasks c => taskBlocks_length env tasks c,
   fun env tasks c b => taskBlocks_ne_nil env tasks c b,
   fun env tasks c => chainExec_flatten env tasks c⟩

/-- Witness for C7: with an environment that rejects every call, the thunk
after a rejected one still runs (its block is present and nonempty). -/
theorem c7_fault_tolerance_witness :
    ([RpcCall.reportTCResult (tcOptions "A-1" none none 0 none)] : List RpcCall) ≠ [] :=
  c7_fault_tolerance.2.2.1 (fun _ => RpcOutcome.reject)
    [QTask.checkDevKey, QTask.publish "A-1" (PublishKind.tc 0 none)]
    ⟨none, none, none, 0⟩
    [RpcCall.reportTCResult (tcOptions "A-1" none none 0 none)]
    (by simp [taskBlocks, execTask, pubOptions])

/-! ## Case registration (C8) and the unmatched-prefix degradation (C10) -/

lemma execTask_nonprov_testproject (env : Nat → RpcOutcome) (c : CoreState) (t : QTask)
    (h : ∀ p ts, t ≠ QTask.provision p ts) :
    (execTask env c t).1.testproject = c.testproject := by
  cases t with
  | checkDevKey => rfl
  | provision p ts => exact absurd rfl (h p ts)
  | publish cid kind =>
    simp only [execTask]
    rcases c.testproject with _ | proj <;> simp
    rcases env c.nCalls with _ | pid | bid | ps | _ <;> simp

lemma execTask_no_add (env : Nat → RpcOutcome) (c : CoreState) (t : QTask)
    (hproj : c.testproject = none) (h : ∀ p ts, t ≠ QTask.provision p ts) :
    ∀ (pid : String) (plid : Option String) (cid : String) (v : Nat),
      RpcCall.addTestCaseToTestPlan pid plid cid v ∉ (execTask env c t).2 := by
  intro pid plid cid v
  cases t with
  | checkDevKey => simp [execTask]
  | provision p ts => exact absurd rfl (h p ts)
  | publish cid2 kind => simp [execTask, hproj]

lemma chainExec_no_add (env : Nat → RpcOutcome) :
    ∀ (tasks : List QTask) (c : CoreState), c.testproject = none →
      (∀ t ∈ tasks, ∀ p ts, t ≠ QTask.provision p ts) →
      ∀ (pid : String) (plid : Option String) (cid : String) (v : Nat),
        RpcCall.addTestCaseToTestPlan pid plid cid v ∉ (chainExec env c tasks).2 := by
  intro tasks
  induction tasks with
  | nil => intro c hc ht pid plid cid v; simp [chainExec]
  | cons t ts ih =>
    intro c hc ht pid plid cid v
    show RpcCall.addTestCaseToTestPlan pid plid cid v
        ∉ (execTask env c t).2 ++ (chainExec env (execTask env c t).1 ts).2
    rw [List.mem_append]
    push_neg
    constructor
    · exact execTask_no_add env c t hc (ht t (List.mem_cons_self t ts)) pid plid cid v
    · have hc2 : (execTask env c t).1.testproject = none := by
        rw [execTask_nonprov_testproject env c t (ht t (List.mem_cons_self t ts))]
        exact hc
      exact ih (execTask env c t).1 hc2
        (fun t2 ht2 => ht t2 (List.mem_cons_of_mem t ht2)) pid plid cid v

lemma tasksOf_no_provision (e : PubEvent) :
    ∀ t ∈ tasksOf e, ∀ p ts, t ≠ QTask.provision p ts := by
  cases e <;>
  · intro t ht p ts
    simp only [tasksOf, List.mem_map] at ht
    obtain ⟨cid, _, hEq⟩ := ht
    rw [show t = QTask.publish cid _ from hEq.symm]
    simp

lemma eventTasks_no_provision :
    ∀ (events : List PubEvent), ∀ t ∈ eventTasks events, ∀ p ts,
      t ≠ QTask.provision p ts := by
  intro events
  induction events with
  | nil => intro t ht; simp [eventTasks] at ht
  | cons e es ih =>
    intro t ht p ts
    rcases List.mem_append.mp ht with h | h
    · exact tasksOf_no_provision e t h p ts
    · exact ih t h p ts

lemma execTask_publish_proj (env : Nat → RpcOutcome) (c : CoreState) (cid : String)
    (kind : PublishKind) (proj : Project) (h : c.testproject = some proj) :
    (execTask env c (QTask.publish cid kind)).2
        = [RpcCall.addTestCaseToTestPlan proj.id c.testplanid cid 1]
      ∨ (execTask env c (QTask.publish cid kind)).2
        = [RpcCall.addTestCaseToTestPlan proj.id c.testplanid cid 1,
           RpcCall.reportTCResult (pubOptions c cid kind)] := by
  simp only [execTask, h]
  rcases env c.nCalls with _ | pid | bid | ps | _ <;> simp

/-- C8: when the run context holds a resolved project (auto-provisioning found
one), every published case id first gets an `addTestCaseToTestPlan` call for
that case and the current plan, and the result submission — if the
registration call did not reject — comes strictly after it; when a
pre-existing `testplanid` was configured, no `addTestCaseToTestPlan` call ever
appears in the trace of any run. -/
theorem c8_add_case_registration :
    (∀ (env : Nat → RpcOutcome) (c : CoreState) (cid : String) (kind : PublishKind)
        (proj : Project), c.testproject = some proj →
      (execTask env c (QTask.publish cid kind)).2
          = [RpcCall.addTestCaseToTestPlan proj.id c.testplanid cid 1]
        ∨ (execTask env c (QTask.publish cid kind)).2
          = [RpcCall.addTestCaseToTestPlan proj.id c.testplanid cid 1,
             RpcCall.reportTCResult (pubOptions c cid kind)])
    ∧ (∀ (o : ReporterOptions), truthy o.testplanid = true →
      ∀ (env : Nat → RpcOutcome) (ts : String) (events : List PubEvent) (sched : List Nat)
        (pid : String) (plid : Option String) (cid : String) (v : Nat),
        RpcCall.addTestCaseToTestPlan pid plid cid v
          ∉ (runSched env sched (initState o ts events)).trace) := by
  constructor
  · intro env c cid kind proj h
    exact execTask_publish_proj env c cid kind proj h
  · intro o h env ts events sched pid plid cid v
    rw [runSched_eq_drain]
    rw [show initState o ts events
        = ⟨⟨o.testplanid, o.buildid, none, 0⟩, events, [QTask.checkDevKey], []⟩ from by
      simp [initState, h]]
    rw [deliverAll_eq, drain_eq]
    show RpcCall.addTestCaseToTestPlan pid plid cid v
        ∉ [] ++ (chainExec env ⟨o.testplanid, o.buildid, none, 0⟩
            ([QTask.checkDevKey] ++ eventTasks events)).2
    rw [List.nil_append]
    apply chainExec_no_add env _ _ rfl
    intro t ht p ts2
    rcases List.mem_append.mp ht with h1 | h1
    · rw [List.mem_singleton.mp h1]; simp
    · exact eventTasks_no_provision events t h1 p ts2

/-- Witness for C8: a concrete resolved project yields the registration call
first, then the result submission. -/
theorem c8_add_case_registration_witness :
    (execTask (fun _ => RpcOutcome.ok)
        ⟨some "P", some "B", some ⟨"7", "XPJ"⟩, 0⟩
        (QTask.publish "XPJ-5" (PublishKind.tc 0 none))).2
        = [RpcCall.addTestCaseToTestPlan "7" (some "P") "XPJ-5" 1]
      ∨ (execTask (fun _ => RpcOutcome.ok)
        ⟨some "P", some "B", some ⟨"7", "XPJ"⟩, 0⟩
        (QTask.publish "XPJ-5" (PublishKind.tc 0 none))).2
        = [RpcCall.addTestCaseToTestPlan "7" (some "P") "XPJ-5" 1,
           RpcCall.reportTCResult (pubOptions ⟨some "P", some "B", some ⟨"7", "XPJ"⟩, 0⟩
             "XPJ-5" (PublishKind.tc 0 none))] :=
  c8_add_case_registration.1 (fun _ => RpcOutcome.ok)
    ⟨some "P", some "B", some ⟨"7", "XPJ"⟩, 0⟩ "XPJ-5" (PublishKind.tc 0 none)
    ⟨"7", "XPJ"⟩ rfl

/-- C10: if provisioning succeeds but `getProjects` returns no project whose
prefix equals the configured prefix, `this.testproject` is left unset while
the plan and build ids are stored; consequently no `addTestCaseToTestPlan`
call is made for any case id and each result submission still proceeds,
carrying the run context's (provisioned) plan and build ids. -/
theorem c10_unmatched_project :
    (∀ (env : Nat → RpcOutcome) (c : CoreState) (p : Option String) (ts : String)
        (pid bid : String) (ps : List Project),
      env c.nCalls = RpcOutcome.okPlan pid →
      env (c.nCalls + 1) = RpcOutcome.okBuild bid →
      env (c.nCalls + 1 + 1) = RpcOutcome.okProjects ps →
      ps.find? (fun pr => some pr.pfx == p) = none →
      (execTask env c (QTask.provision p ts)).1
        = ⟨some pid, some bid, none, c.nCalls + 1 + 1 + 1⟩)
    ∧ (∀ (env : Nat → RpcOutcome) (c : CoreState) (cid : String) (kind : PublishKind),
      c.testproject = none →
      (execTask env c (QTask.publish cid kind)).2
          = [RpcCall.reportTCResult (pubOptions c cid kind)]
        ∧ (pubOptions c cid kind).testplanid = c.testplanid
        ∧ (pubOptions c cid kind).buildid = c.buildid) := by
  constructor
  · intro env c p ts pid bid ps h1 h2 h3 hfind
    simp only [execTask, h1, h2, h3, hfind]
  · intro env c cid kind h
    refine ⟨by simp [execTask, h], ?_, ?_⟩ <;> cases kind <;> rfl

/-- Witness for C10: a concrete provisioning run whose project list has no
matching prefix, followed by a result submission with the provisioned ids. -/
theorem c10_unmatched_project_witness :
    (execTask cexEnv ⟨none, none, none, 1⟩ (QTask.provision (some "XPJ") "T0")).1
      = ⟨some "P1", some "B1", none, 1 + 1 + 1 + 1⟩
    ∧ ((execTask cexEnv ⟨some "P1", some "B1", none, 4⟩
          (QTask.publish "XPJ-5" (PublishKind.tc 1200 none))).2
        = [RpcCall.reportTCResult
            (pubOptions ⟨some "P1", some "B1", none, 4⟩ "XPJ-5" (PublishKind.tc 1200 none))]
      ∧ (pubOptions ⟨some "P1", some "B1", none, 4⟩ "XPJ-5"
          (PublishKind.tc 1200 none)).testplanid = some "P1"
      ∧ (pubOptions ⟨some "P1", some "B1", none, 4⟩ "XPJ-5"
          (PublishKind.tc 1200 none)).buildid = some "B1") :=
  ⟨c10_unmatched_project.1 cexEnv ⟨none, none, none, 1⟩ (some "XPJ") "T0" "P1" "B1" []
      rfl rfl rfl rfl,
   c10_unmatched_project.2 cexEnv ⟨some "P1", some "B1", none, 4⟩ "XPJ-5"
      (PublishKind.tc 1200 none) rfl⟩

/-! ## Plan/build ids in the published record (C2) -/

/-- C2, counterexample to the claim as stated: under the schedule in which the
runner emits the passing test before any queued thunk has settled, the plan id
of the run context at the moment the submission is enqueued is still `none`
(provisioning has not executed), yet the record that reaches `reportTCResult`
carries the plan id `P1` and build id `B1` produced later by the provisioning
thunk — the record holds the submission-time values, not the enqueue-time
values. -/
theorem c2_enqueue_time_counterexample :
    (execN cexEnv 0 (initState cexOpts "T0" [PubEvent.testPass "does X [XPJ-5]" 1200])).core.testplanid
      = none
    ∧ (runSched cexEnv [0] (initState cexOpts "T0" [PubEvent.testPass "does X [XPJ-5]" 1200])).trace
      = [RpcCall.checkDevKey,
         RpcCall.createTestPlan "Automated test plan T0" (some "XPJ"),
         RpcCall.createBuild (some "P1") "automated build" "" true true "",
         RpcCall.getProjects,
         RpcCall.reportTCResult
           { testcaseexternalid := "XPJ-5", testplanid := some "P1",
             status := ExecStatus.passed, buildid := some "B1",
             execduration := 1200 / 60000, notes := some "", steps := [] }]
    ∧ some "P1" ≠ (none : Option String) := by
  refine ⟨rfl, rfl, by simp⟩

/-- C2, amended: the plan id and build id placed in a published result record
equal the run context's values at the moment the queued submission executes
(`optionsGen` runs inside the queued thunk), not at enqueue time; the queue
ordering guarantees provisioning has settled by then. -/
theorem c2_ids_at_execution_time :
    ∀ (env : Nat → RpcOutcome) (c : CoreState) (cid : String) (kind : PublishKind)
      (r : ResultRecord),
      RpcCall.reportTCResult r ∈ (execTask env c (QTask.publish cid kind)).2 →
      r.testplanid = c.testplanid ∧ r.buildid = c.buildid := by
  intro env c cid kind r hmem
  have hr : r = pubOptions c cid kind := by
    rcases hp : c.testproject with _ | proj
    · simp [execTask, hp] at hmem
      exact hmem
    · rcases h1 : env c.nCalls with _ | pid | bid | ps | _ <;>
        simp [execTask, hp, h1] at hmem <;> exact hmem
  rw [hr]
  cases kind <;> exact ⟨rfl, rfl⟩

/-- Witness for the amended C2 at a concrete record and state. -/
theorem c2_ids_at_execution_time_witness :
    (pubOptions ⟨some "P1", some "B1", none, 4⟩ "XPJ-5"
        (PublishKind.tc 1200 none)).testplanid = some "P1"
    ∧ (pubOptions ⟨some "P1", some "B1", none, 4⟩ "XPJ-5"
        (PublishKind.tc 1200 none)).buildid = some "B1" :=
  c2_ids_at_execution_time cexEnv ⟨some "P1", some "B1", none, 4⟩ "XPJ-5"
    (PublishKind.tc 1200 none)
    (pubOptions ⟨some "P1", some "B1", none, 4⟩ "XPJ-5" (PublishKind.tc 1200 none))
    (by simp [execTask, pubOptions])

/-! ## Identifier extraction (C3) -/

lemma takeWhile_all_append (p : Char → Bool) :
    ∀ (w : List Char) (x : Char) (t : List Char),
      (∀ c ∈ w, p c = true) → p x = false →
      (w ++ x :: t).takeWhile p = w ∧ (w ++ x :: t).dropWhile p = x :: t := by
  intro w
  induction w with
  | nil =>
    intro x t hw hx
    constructor
    · simp [List.takeWhile_cons, hx]
    · simp [List.dropWhile_cons, hx]
  | cons a w ih =>
    intro x t hw hx
    have ha : p a = true := hw a (List.mem_cons_self a w)
    have hrest := ih x t (fun c hc => hw c (List.mem_cons_of_mem a hc)) hx
    constructor
    · simpa [List.takeWhile_cons, ha] using hrest.1
    · simpa [List.dropWhile_cons, ha] using hrest.2

lemma matchIdAt_sound :
    ∀ (l tok r : List Char), matchIdAt l = some (tok, r) →
      ∃ w d : List Char, w ≠ [] ∧ d ≠ [] ∧ IsWordList w ∧ IsDigitList d ∧
        tok = w ++ '-' :: d ∧ l = '[' :: (w ++ '-' :: (d ++ ']' :: r)) := by
  intro l tok r h
  rcases l with _ | ⟨c, rest⟩
  · exact Option.noConfusion h
  · simp only [matchIdAt] at h
    by_cases hc : c = '['
    case neg => rw [if_neg hc] at h; exact Option.noConfusion h
    rw [if_pos hc] at h
    rcases hdrop : rest.dropWhile isWordChar with _ | ⟨c2, r2⟩
    · simp [hdrop] at h
    simp only [hdrop] at h
    by_cases hc2 : c2 = '-'
    case neg => rw [if_neg hc2] at h; exact Option.noConfusion h
    rw [if_pos hc2] at h
    rcases hdrop2 : r2.dropWhile Char.isDigit with _ | ⟨c3, r4⟩
    · simp [hdrop2] at h
    simp only [hdrop2] at h
    by_cases hc3 : c3 = ']'
    case neg => rw [if_neg hc3] at h; exact Option.noConfusion h
    rw [if_pos hc3] at h
    by_cases hemp : ((rest.takeWhile isWordChar).isEmpty
        || (r2.takeWhile Char.isDigit).isEmpty) = true
    · rw [if_pos hemp] at h; exact Option.noConfusion h
    rw [if_neg hemp] at h
    simp only [Option.some.injEq, Prod.mk.injEq] at h
    obtain ⟨htok, hr⟩ := h
    subst htok hr
    refine ⟨rest.takeWhile isWordChar, r2.takeWhile Char.isDigit, ?_, ?_, ?_, ?_, rfl, ?_⟩
    · intro hnil; apply hemp; rw [hnil]; rfl
    · intro hnil; apply hemp; rw [hnil]; simp
    · exact fun ch hch => List.mem_takeWhile_imp hch
    · exact fun ch hch => List.mem_takeWhile_imp hch
    · subst hc hc2 hc3
      have e1 : rest = rest.takeWhile isWordChar ++ rest.dropWhile isWordChar :=
        (List.takeWhile_append_dropWhile isWordChar rest).symm
      rw [hdrop] at e1
      have e2 : r2 = r2.takeWhile Char.isDigit ++ r2.dropWhile Char.isDigit :=
        (List.takeWhile_append_dropWhile Char.isDigit r2).symm
      rw [hdrop2] at e2
      conv_lhs => rw [e1]
      conv_lhs => rw [e2]

lemma matchIdAt_complete :
    ∀ (w d t : List Char), w ≠ [] → d ≠ [] → IsWordList w → IsDigitList d →
      matchIdAt ('[' :: (w ++ '-' :: (d ++ ']' :: t))) = some (w ++ '-' :: d, t) := by
  intro w d t hw hd hwl hdl
  have h1 := takeWhile_all_append isWordChar w '-' (d ++ ']' :: t) hwl (by decide)
  have h2 := takeWhile_all_append Char.isDigit d ']' t hdl (by decide)
  have hw2 : w.isEmpty = false := by cases w with | nil => exact absurd rfl hw | cons a l => rfl
  have hd2 : d.isEmpty = false := by cases d with | nil => exact absurd rfl hd | cons a l => rfl
  simp [matchIdAt, h1.1, h1.2, h2.1, h2.2, hw2, hd2]

lemma scanIdsFuel_cons_some (fuel : Nat) (c : Char) (rest tok r : List Char)
    (h : matchIdAt (c :: rest) = some (tok, r)) :
    scanIdsFuel (fuel + 1) (c :: rest) = String.mk tok :: scanIdsFuel fuel r := by
  simp [scanIdsFuel, h]

lemma scanIdsFuel_cons_none (fuel : Nat) (c : Char) (rest : List Char)
    (h : matchIdAt (c :: rest) = none) :
    scanIdsFuel (fuel + 1) (c :: rest) = scanIdsFuel fuel rest := by
  simp [scanIdsFuel, h]

lemma scanIdsFuel_sound :
    ∀ (fuel : Nat) (l : List Char) (tok : String), l.length ≤ fuel →
      tok ∈ scanIdsFuel fuel l →
      MatchesIdPattern ('[' :: (tok.data ++ [']'])) ∧ ('[' :: (tok.data ++ [']'])) <:+: l := by
  intro fuel
  induction fuel with
  | zero => intro l tok hl htok; simp [scanIdsFuel] at htok
  | succ fuel ih =>
    intro l tok hl htok
    rcases l with _ | ⟨c, rest⟩
    · simp [scanIdsFuel] at htok
    · rcases hm : matchIdAt (c :: rest) with _ | ⟨tok2, r⟩
      · rw [scanIdsFuel_cons_none fuel c rest hm] at htok
        have hlen : rest.length ≤ fuel := by
          simp only [List.length_cons] at hl; omega
        obtain ⟨hpat, hinf⟩ := ih rest tok hlen htok
        exact ⟨hpat, List.infix_cons hinf⟩
      · obtain ⟨w, d, hw, hd, hwl, hdl, htok2, hl2⟩ := matchIdAt_sound (c :: rest) tok2 r hm
        rw [scanIdsFuel_cons_some fuel c rest tok2 r hm] at htok
        rcases List.mem_cons.mp htok with heq | hmem
        · subst heq
          have hdata : (String.mk tok2).data = tok2 := rfl
          constructor
          · exact ⟨w, d, hw, hd, hwl, hdl, by rw [hdata, htok2]; simp⟩
          · rw [hl2]
            refine List.IsPrefix.isInfix ⟨r, ?_⟩
            rw [hdata, htok2]
            simp
        · have hlenEq := congrArg List.length hl2
          simp only [List.length_cons, List.length_append] at hlenEq hl
          have hrlen : r.length ≤ fuel := by omega
          obtain ⟨hpat, hinf⟩ := ih r tok hrlen hmem
          refine ⟨hpat, hinf.trans ?_⟩
          refine List.IsSuffix.isInfix ⟨'[' :: (w ++ '-' :: (d ++ [']'])), ?_⟩
          rw [hl2]
          simp

lemma scanIdsFuel_complete :
    ∀ (fuel : Nat) (l : List Char), l.length ≤ fuel →
      (∃ s : List Char, s <:+: l ∧ MatchesIdPattern s) → scanIdsFuel fuel l ≠ [] := by
  intro fuel
  induction fuel with
  | zero =>
    intro l hl hex
    have hnil : l = [] := List.length_eq_zero.mp (Nat.le_zero.mp hl)
    subst hnil
    obtain ⟨s, hinf, w, d, hw, hd, hwl, hdl, hs⟩ := hex
    obtain ⟨pre, suf, hps⟩ := hinf
    rw [hs] at hps
    simp at hps
  | succ fuel ih =>
    intro l hl hex
    rcases l with _ | ⟨c, rest⟩
    · obtain ⟨s, hinf, w, d, hw, hd, hwl, hdl, hs⟩ := hex
      obtain ⟨pre, suf, hps⟩ := hinf
      rw [hs] at hps
      simp at hps
    · rcases hm : matchIdAt (c :: rest) with _ | ⟨tok2, r⟩
      · rw [scanIdsFuel_cons_none fuel c rest hm]
        have hlen : rest.length ≤ fuel := by
          simp only [List.length_cons] at hl; omega
        refine ih rest hlen ?_
        obtain ⟨s, hinf, hpat⟩ := hex
        obtain ⟨pre, suf, hps⟩ := hinf
        rcases pre with _ | ⟨a, pre2⟩
        · obtain ⟨w, d, hw, hd, hwl, hdl, hs⟩ := hpat
          rw [hs] at hps
          simp only [List.nil_append, List.cons_append] at hps
          injection hps with hc hrest
          have hrest2 : rest = w ++ '-' :: (d ++ ']' :: suf) := by
            rw [← hrest]; simp
          have hsome : matchIdAt (c :: rest) = some (w ++ '-' :: d, suf) := by
            rw [← hc, hrest2]
            exact matchIdAt_complete w d suf hw hd hwl hdl
          rw [hm] at hsome
          exact Option.noConfusion hsome
        · rw [List.cons_append, List.cons_append] at hps
          injection hps with hac hrest
          exact ⟨s, ⟨pre2, suf, hrest⟩, hpat⟩
      · rw [scanIdsFuel_cons_some fuel c rest tok2 r hm]
        simp

/-- C3: identifier extraction.  The concrete behaviour of the spec's examples;
soundness: every extracted token, in order, is the bracket-stripped capture of
a `\[(\w+-\d+)\]` match occurring in the title; and the result is empty
exactly when no substring of the title matches the pattern (hence no publish
thunk is created for such a title). -/
theorem c3_identifier_extraction :
    titleToCaseIds "a [AB-1] b [CD-22] [AB-1]" = ["AB-1", "CD-22", "AB-1"]
    ∧ titleToCaseIds "no bracketed tokens" = []
    ∧ (∀ title : String, (¬ ∃ s : List Char, s <:+: title.data ∧ MatchesIdPattern s) →
        titleToCaseIds title = [])
    ∧ (∀ title : String, titleToCaseIds title = [] →
        ¬ ∃ s : List Char, s <:+: title.data ∧ MatchesIdPattern s)
    ∧ (∀ (title tok : String), tok ∈ titleToCaseIds title →
        MatchesIdPattern ('[' :: (tok.data ++ [']']))
        ∧ ('[' :: (tok.data ++ [']'])) <:+: title.data)
    ∧ (∀ (title : String) (d : ℚ), titleToCaseIds title = [] →
        tasksOf (PubEvent.testPass title d) = []) := by
  refine ⟨by decide, by decide, ?_, ?_, ?_, ?_⟩
  · intro title hno
    by_contra hne
    obtain ⟨tok, htok⟩ : ∃ tok, tok ∈ titleToCaseIds title := by
      rcases hl : titleToCaseIds title with _ | ⟨t0, ts⟩
      · exact absurd hl hne
      · exact ⟨t0, List.mem_cons_self t0 ts⟩
    obtain ⟨hpat, hinf⟩ :=
      scanIdsFuel_sound title.data.length title.data tok le_rfl htok
    exact hno ⟨'[' :: (tok.data ++ [']']), hinf, hpat⟩
  · intro title hempty hex
    exact scanIdsFuel_complete title.data.length title.data le_rfl hex hempty
  · intro title tok htok
    exact scanIdsFuel_sound title.data.length title.data tok le_rfl htok
  · intro title d h
    simp [tasksOf, h]

/-- Witness for C3: the token extracted from a concrete title is a pattern
match occurring (bracketed) inside that title. -/
theorem c3_identifier_extraction_witness :
    MatchesIdPattern ('[' :: ("AB-1".data ++ [']']))
    ∧ ('[' :: ("AB-1".data ++ [']'])) <:+: "a [AB-1] b".data :=
  c3_identifier_extraction.2.2.2.2.1 "a [AB-1] b" "AB-1" (by decide)
